import Mathlib

/-!
Verification of the corporate-spend-tracking ingestion pipeline.

This file gives a shallow embedding, in Lean 4, of the core algorithms of the
repository: the exponential-backoff retry layer and circuit breaker
(`backend/data_collection/ingestion/error_handler.py`), the company-name
resolution engine (`backend/data_collection/ingestion/data_processor.py`),
the spending aggregation engine
(`backend/data_collection/utils/spending_calculator.py`) and the grant
recipient classifier (`backend/data_collection/ingestion/irs_ingestion.py`).

Strings are modelled as `List Char` with ASCII semantics for the character
classes used by the Python code (`str.lower`, `str.strip`, `\s`, `\w`);
monetary `Decimal` amounts and float delays are modelled as exact rationals;
Python `date` values are year/month/day triples ordered lexicographically.
-/

namespace SpendTrack

/-- ASCII whitespace, as matched by Python `\s` and stripped by `str.strip`
on the ASCII range: space, tab, newline, vertical tab, form feed, carriage
return. -/
def isSpaceC (c : Char) : Bool :=
  c == ' ' || c == '\t' || c == '\n' || c == '\x0b' || c == '\x0c' || c == '\r'

/-- ASCII word character, as matched by Python `\w` on the ASCII range:
letters, digits and underscore. -/
def isWordC (c : Char) : Bool :=
  ('a' ≤ c && c ≤ 'z') || ('A' ≤ c && c ≤ 'Z') || ('0' ≤ c && c ≤ '9') || c == '_'

/-- The uppercase/lowercase ASCII letter table used to model `str.lower`. -/
def lowerPairs : List (Char × Char) :=
  [('A', 'a'), ('B', 'b'), ('C', 'c'), ('D', 'd'), ('E', 'e'), ('F', 'f'),
   ('G', 'g'), ('H', 'h'), ('I', 'i'), ('J', 'j'), ('K', 'k'), ('L', 'l'),
   ('M', 'm'), ('N', 'n'), ('O', 'o'), ('P', 'p'), ('Q', 'q'), ('R', 'r'),
   ('S', 's'), ('T', 't'), ('U', 'u'), ('V', 'v'), ('W', 'w'), ('X', 'x'),
   ('Y', 'y'), ('Z', 'z')]

/-- Python `str.lower` on a single character (ASCII range). -/
def toLowerC (c : Char) : Char :=
  match lowerPairs.find? (fun p => p.1 == c) with
  | some p => p.2
  | none => c

/-- Python `str.lower` on a string. -/
def pyLower (s : List Char) : List Char := s.map toLowerC

/-- Remove the maximal run of trailing ASCII whitespace (the right half of
Python `str.strip`). -/
def dropTrailingSp : List Char → List Char
  | [] => []
  | c :: t =>
    match dropTrailingSp t with
    | [] => if isSpaceC c then [] else [c]
    | r => c :: r

/-- Python `str.strip`: remove leading and trailing whitespace. -/
def pyStrip (s : List Char) : List Char := dropTrailingSp (s.dropWhile isSpaceC)

/-- Python `re.sub(r'[^\w\s]', '', s)`: delete every character that is
neither a word character nor whitespace. -/
def removePunct (s : List Char) : List Char :=
  s.filter (fun c => isWordC c || isSpaceC c)

/-- Worker for `collapseWs`; the flag records whether the previous character
was whitespace (in which case further whitespace is absorbed into the
already-emitted single space). -/
def collapseAux : Bool → List Char → List Char
  | _, [] => []
  | prevSp, c :: t =>
    if isSpaceC c then
      if prevSp then collapseAux true t else ' ' :: collapseAux true t
    else
      c :: collapseAux false t

/-- Python `re.sub(r'\s+', ' ', s)`: replace every maximal whitespace run by
a single space. -/
def collapseWs (s : List Char) : List Char := collapseAux false s

/-- Does `pat` occur at the start of `s`?  Used to model regex alternatives
matched against the reversed string. -/
def leadsWith : List Char → List Char → Bool
  | [], _ => true
  | _ :: _, [] => false
  | p :: ps, c :: cs => p == c && leadsWith ps cs

/-- Does `pat` occur as a contiguous substring of `s` (Python `in` on
strings)? -/
def hasSub (pat : List Char) : List Char → Bool
  | [] => leadsWith pat []
  | c :: t => leadsWith pat (c :: t) || hasSub pat t

/-- The corporate-suffix alternatives of
`re.sub(r'\s+(inc|corp|corporation|llc|ltd|limited|company|co)\.?$', '', s)`
in source order. -/
def suffixAlts : List (List Char) :=
  ["inc".data, "corp".data, "corporation".data, "llc".data, "ltd".data,
   "limited".data, "company".data, "co".data]

/-- Try each suffix alternative against the reversed string `r1` (the
optional trailing dot already removed); on a match preceded by whitespace,
the whole `\s+(alt)\.?` tail is deleted, otherwise the original string `s`
is returned. -/
def tryAlts : List (List Char) → List Char → List Char → List Char
  | [], _, s => s
  | a :: rest, r1, s =>
    if leadsWith a.reverse r1 &&
        (((r1.drop a.length).head?.map isSpaceC).getD false) then
      ((r1.drop a.length).dropWhile isSpaceC).reverse
    else tryAlts rest r1 s

/-- One application of the end-anchored suffix-stripping regex
`re.sub(r'\s+(inc|corp|corporation|llc|ltd|limited|company|co)\.?$', '', s)`
to a string with no trailing whitespace (the code applies it right after
`str.strip`).  The regex can match only at the end of the string: an
optional literal dot, preceded by one of the suffix alternatives, preceded
by at least one whitespace character; the match (whitespace included) is
deleted. -/
def stripSuffixOnce (s : List Char) : List Char :=
  let r := s.reverse
  let r1 := if r.head? == some '.' then r.tail else r
  tryAlts suffixAlts r1 s

/-- Model of `DataProcessor._normalize_company_name`: lowercase, strip, delete one
trailing corporate-suffix token, delete punctuation, collapse whitespace
runs to single spaces, strip again; the empty string is returned
unchanged. -/
def normalize_company_name (name : List Char) : List Char :=
  if name.isEmpty then []
  else pyStrip (collapseWs (removePunct (stripSuffixOnce (pyStrip (pyLower name)))))

/-- Model of `DataProcessor._load_company_mapping`: the static alias table from
normalized names to canonical display names. -/
def company_mapping : List (List Char × List Char) :=
  [("apple inc".data, "Apple Inc.".data),
   ("apple computer".data, "Apple Inc.".data),
   ("microsoft corporation".data, "Microsoft Corporation".data),
   ("microsoft corp".data, "Microsoft Corporation".data),
   ("alphabet inc".data, "Alphabet Inc.".data),
   ("google inc".data, "Alphabet Inc.".data),
   ("google llc".data, "Alphabet Inc.".data)]

/-- A `Company` row of the record store (`data_collection/models.py`):
identifier, display name, optional ticker, optional CIK. -/
structure Company where
  id : Nat
  name : List Char
  ticker : Option (List Char)
  cik : Option (List Char)
deriving DecidableEq, Repr

/-- The company table together with the id the next created row receives. -/
structure Store where
  companies : List Company
  nextId : Nat
deriving DecidableEq, Repr

/-- Case-insensitive exact string comparison (Django `__iexact`). -/
def iexact (a b : List Char) : Bool := pyLower a == pyLower b

/-- Python truthiness of an optional string argument (`None` and `''` are
falsy). -/
def truthyStr : Option (List Char) → Bool
  | none => false
  | some s => !s.isEmpty

/-- Model of `Company.objects.filter(name__iexact=n).first()`. -/
def findByName (st : Store) (n : List Char) : Option Company :=
  st.companies.find? (fun c => iexact c.name n)

/-- Model of `Company.objects.filter(ticker__iexact=t).first()` (rows with no ticker
never match). -/
def findByTicker (st : Store) (t : List Char) : Option Company :=
  st.companies.find? (fun c =>
    match c.ticker with
    | some ct => iexact ct t
    | none => false)

/-- Model of `Company.objects.filter(cik=k).first()` (exact match; rows with no CIK
never match). -/
def findByCik (st : Store) (k : List Char) : Option Company :=
  st.companies.find? (fun c => c.cik == some k)

/-- The first two steps of `DataProcessor._find_or_create_company`:
normalize the raw name and substitute the canonical display name when the
normalized name is a key of the alias table. -/
def resolve_alias (name : List Char) : List Char :=
  match company_mapping.find? (fun p => p.1 == normalize_company_name name) with
  | some p => p.2
  | none => name

/-- Model of `DataProcessor._find_or_create_company`: after the alias substitution
`resolve_alias`, look up an existing row by case-insensitive name, then by
ticker (when truthy), then by CIK (when truthy); create a fresh row when
every lookup fails.  Returns the resolved company and the updated
store. -/
def find_or_create_company (st : Store) (name : List Char)
    (ticker cik : Option (List Char)) : Company × Store :=
  let name1 := resolve_alias name
  match findByName st name1 with
  | some c => (c, st)
  | none =>
    match (if truthyStr ticker then findByTicker st (ticker.getD []) else none) with
    | some c => (c, st)
    | none =>
      match (if truthyStr cik then findByCik st (cik.getD []) else none) with
      | some c => (c, st)
      | none =>
        let c : Company := { id := st.nextId, name := name1, ticker := ticker, cik := cik }
        (c, { companies := st.companies ++ [c], nextId := st.nextId + 1 })

/-- A Python `datetime.date`, ordered lexicographically. -/
structure PyDate where
  year : Int
  month : Nat
  day : Nat
deriving DecidableEq, Repr

/-- Lexicographic order on dates (Python `date` comparison). -/
def PyDate.leD (a b : PyDate) : Bool :=
  a.year < b.year ||
  (a.year == b.year && (a.month < b.month ||
    (a.month == b.month && a.day ≤ b.day)))

/-- A `LobbyingReport` row: company reference, year, quarter, amount
spent. -/
structure LobbyingReport where
  companyId : Nat
  year : Int
  quarter : Nat
  amountSpent : ℚ
deriving DecidableEq, Repr

/-- A `CharitableGrant` row: company reference, fiscal year, amount. -/
structure CharitableGrant where
  companyId : Nat
  fiscalYear : Int
  amount : ℚ
deriving DecidableEq, Repr

/-- A `PoliticalContribution` row: PAC/committee name (no company
reference), amount, date. -/
structure PoliticalContribution where
  companyPacId : List Char
  amount : ℚ
  date : PyDate
deriving DecidableEq, Repr

/-- The record store tables read by the aggregation engine. -/
structure Db where
  lobbyingReports : List LobbyingReport
  charitableGrants : List CharitableGrant
  politicalContributions : List PoliticalContribution
deriving DecidableEq, Repr

/-- Sum of a list of rationals (`aggregate(Sum(..))` with
`or Decimal('0')` for the empty case). -/
def sumQ (l : List ℚ) : ℚ := l.foldr (fun a b => a + b) 0

/-- Case-insensitive substring test (Django `__icontains`): is `pat` a
contiguous substring of `s`, ignoring case? -/
def icontains (s pat : List Char) : Bool :=
  hasSub (pyLower pat) (pyLower s)

/-- First whitespace-separated token of a string
(`name.split()[0]`); empty when the string is all whitespace
(`name.split() == []`). -/
def firstToken (s : List Char) : List Char :=
  (s.dropWhile isSpaceC).takeWhile (fun c => !isSpaceC c)

/-- Model of `SpendingCalculator._calculate_lobbying_spending`: sum `amount_spent`
over the company's lobbying reports, keeping reports whose `year` is at
least the start date's year and at most the end date's year when those
bounds are given. -/
def calculate_lobbying_spending (db : Db) (company : Company)
    (startDate endDate : Option PyDate) : ℚ :=
  let qs0 : List LobbyingReport :=
    db.lobbyingReports.filter (fun r => r.companyId == company.id)
  let qs1 : List LobbyingReport := match startDate with
    | some d => qs0.filter (fun r => d.year ≤ r.year)
    | none => qs0
  let qs2 : List LobbyingReport := match endDate with
    | some d => qs1.filter (fun r => r.year ≤ d.year)
    | none => qs1
  sumQ (qs2.map (fun r => r.amountSpent))

/-- Model of `SpendingCalculator._calculate_charitable_spending`: sum `amount` over
the company's grants, filtered by fiscal year against the year components
of the bounds. -/
def calculate_charitable_spending (db : Db) (company : Company)
    (startDate endDate : Option PyDate) : ℚ :=
  let qs0 : List CharitableGrant :=
    db.charitableGrants.filter (fun g => g.companyId == company.id)
  let qs1 : List CharitableGrant := match startDate with
    | some d => qs0.filter (fun g => d.year ≤ g.fiscalYear)
    | none => qs0
  let qs2 : List CharitableGrant := match endDate with
    | some d => qs1.filter (fun g => g.fiscalYear ≤ d.year)
    | none => qs1
  sumQ (qs2.map (fun g => g.amount))

/-- Model of `SpendingCalculator._calculate_political_spending`: sum `amount` over
contributions whose PAC name contains the first token of the company name
(case-insensitive), date-filtered by the full bounds; zero when the company
name has no tokens. -/
def calculate_political_spending (db : Db) (company : Company)
    (startDate endDate : Option PyDate) : ℚ :=
  let tok := firstToken company.name
  if tok.isEmpty then 0
  else
    let qs0 : List PoliticalContribution := db.politicalContributions.filter
      (fun p => icontains p.companyPacId tok)
    let qs1 : List PoliticalContribution := match startDate with
      | some d => qs0.filter (fun p => d.leD p.date)
      | none => qs0
    let qs2 : List PoliticalContribution := match endDate with
      | some d => qs1.filter (fun p => p.date.leD d)
      | none => qs1
    sumQ (qs2.map (fun p => p.amount))

/-- The `{lobbying, charitable, political, total}` breakdown returned by
the aggregation engine. -/
structure SpendingResult where
  lobbying : ℚ
  charitable : ℚ
  political : ℚ
  total : ℚ
deriving DecidableEq, Repr

/-- Model of `SpendingCalculator.calculate_company_spending`: fill in the categories
selected by `category` (each defaulting to zero) and set `total` to the sum
of the three category fields. -/
def calculate_company_spending (db : Db) (company : Company)
    (category : List Char) (startDate endDate : Option PyDate) : SpendingResult :=
  let l := if category = "all".data ∨ category = "lobbying".data then
    calculate_lobbying_spending db company startDate endDate else 0
  let c := if category = "all".data ∨ category = "charitable".data then
    calculate_charitable_spending db company startDate endDate else 0
  let p := if category = "all".data ∨ category = "political".data then
    calculate_political_spending db company startDate endDate else 0
  { lobbying := l, charitable := c, political := p, total := l + c + p }

/-- Python truthiness of an optional `Decimal` bound (`None` and `0` are
falsy). -/
def truthyQ : Option ℚ → Bool
  | none => false
  | some q => !(q == 0)

/-- Model of `SpendingCalculator.filter_companies_by_spending`: when both bounds are
falsy return every id of the queryset unchanged; otherwise keep the ids of
companies whose total spending passes each truthy bound. -/
def filter_companies_by_spending (db : Db) (queryset : List Company)
    (minSpending maxSpending : Option ℚ)
    (startDate endDate : Option PyDate) : List Nat :=
  if !truthyQ minSpending && !truthyQ maxSpending then
    queryset.map (fun c => c.id)
  else
    (queryset.filter (fun c =>
      let total := (calculate_company_spending db c ("all".data) startDate endDate).total
      !(truthyQ minSpending && decide (total < minSpending.getD 0)) &&
      !(truthyQ maxSpending && decide (maxSpending.getD 0 < total)))).map (fun c => c.id)

/-- Configuration of `ExponentialBackoff`. -/
structure BackoffCfg where
  maxRetries : Nat
  baseDelay : ℚ
  maxDelay : ℚ
  expBase : ℚ
  jitter : Bool
deriving DecidableEq, Repr

/-- The default constructor arguments of `ExponentialBackoff` with jitter
disabled, as configured in the repository's own delay tests. -/
def defaultCfg : BackoffCfg :=
  { maxRetries := 3, baseDelay := 1, maxDelay := 60, expBase := 2, jitter := false }

/-- Model of `ExponentialBackoff.calculate_delay`.  The attempt number is a Python
`int` (so may be non-positive); `jitterSample` stands for the value drawn
by `random.uniform(-0.1 * delay, 0.1 * delay)` and is only added when
jitter is enabled. -/
def calculate_delay (cfg : BackoffCfg) (jitterSample : ℚ) (attempt : Int) : ℚ :=
  if attempt ≤ 0 then 0
  else
    let d := cfg.baseDelay * cfg.expBase ^ (attempt - 1).toNat
    let d := min d cfg.maxDelay
    let d := if cfg.jitter then d + jitterSample else d
    max 0 d

/-- The exception values that can reach `_is_retryable_error`:
`requests.ConnectionError`, `requests.Timeout`, `requests.HTTPError` (which
always carries a response status), `RateLimitError` with its optional
`retry_after`, plain `APIError` with its optional `status_code`, and any
other exception. -/
inductive PyError where
  | connectionError
  | timeoutError
  | httpError (statusCode : Nat)
  | rateLimitError (retryAfter : Option Nat)
  | apiError (statusCode : Option Nat)
  | otherError
deriving DecidableEq, Repr

/-- Model of `ExponentialBackoff._is_retryable_error`.  Note the `APIError` branch:
`if error.status_code and 500 <= error.status_code < 600` tests Python
truthiness of the status first, and a `None` status fails both that test
and the `== 429` test. -/
def is_retryable_error : PyError → Bool
  | .connectionError => true
  | .timeoutError => true
  | .httpError s => (500 ≤ s && s < 600) || s == 429 || s == 408
  | .rateLimitError _ => true
  | .apiError (some s) => (!(s == 0) && 500 ≤ s && s < 600) || s == 429
  | .apiError none => false
  | .otherError => false

/-- Worker for the retry loop of `ExponentialBackoff.__call__`.  `f n` is
the outcome of the `(n+1)`-st invocation of the wrapped function;
`remaining` counts the loop iterations still allowed after the current one
(`max_retries - attempt`).  Returns the final outcome together with the
number of invocations performed. -/
def retryAux (retriable : PyError → Bool) (f : Nat → Except PyError α) :
    Nat → Nat → Except PyError α × Nat
  | attempt, 0 =>
    match f attempt with
    | .ok a => (.ok a, attempt + 1)
    | .error e => (.error e, attempt + 1)
  | attempt, r + 1 =>
    match f attempt with
    | .ok a => (.ok a, attempt + 1)
    | .error e =>
      if retriable e then retryAux retriable f (attempt + 1) r
      else (.error e, attempt + 1)

/-- The retry loop of `ExponentialBackoff.__call__`: run `f` for attempts
`0, 1, …`; stop immediately on success, stop on a non-retryable failure,
and stop after `maxRetries + 1` attempts in any case, re-raising the last
error. -/
def retryCall (maxRetries : Nat) (retriable : PyError → Bool)
    (f : Nat → Except PyError α) : Except PyError α × Nat :=
  retryAux retriable f 0 maxRetries

/-- What the transport layer does on one attempt inside
`robust_api_request`: raise a timeout, raise a connection error, or deliver
an HTTP response with a status code and an optional integer `Retry-After`
header. -/
inductive TransportResult where
  | timeout
  | connError
  | response (status : Nat) (retryAfter : Option Nat)
deriving DecidableEq, Repr

/-- The body `_make_request` of `robust_api_request`: a 429 response
becomes a `RateLimitError`; `raise_for_status` turns any other 4xx/5xx
response into an `HTTPError` that the handler converts to an `APIError`
carrying the status; a `Timeout` or `ConnectionError` is converted to an
`APIError` with **no** status code. -/
def make_request (transport : Nat → TransportResult) (attempt : Nat) :
    Except PyError Nat :=
  match transport attempt with
  | .timeout => .error (.apiError none)
  | .connError => .error (.apiError none)
  | .response status retryAfter =>
    if status == 429 then .error (.rateLimitError retryAfter)
    else if 400 ≤ status && status < 600 then .error (.apiError (some status))
    else .ok status

/-- Model of `robust_api_request`: `_make_request` wrapped in
`ExponentialBackoff(max_retries=max_retries)`.  Returns the final outcome
and the number of attempts actually made. -/
def robust_api_request (maxRetries : Nat) (transport : Nat → TransportResult) :
    Except PyError Nat × Nat :=
  retryCall maxRetries is_retryable_error (make_request transport)

/-- The per-call-site state of the `circuit_breaker` decorator. -/
structure CBState where
  failures : Nat
  lastFailureTime : ℚ
  isOpen : Bool
deriving DecidableEq, Repr

/-- The initial breaker state `{"failures": 0, "last_failure_time": 0,
"is_open": False}`. -/
def cbInit : CBState := { failures := 0, lastFailureTime := 0, isOpen := false }

/-- Outcome of one circuit-breaker-wrapped call: the wrapped function's
value, the wrapped function's exception, or the fail-fast
service-unavailable `APIError` raised while the breaker is open. -/
inductive CBOutcome (α : Type) where
  | value (a : α)
  | err (e : PyError)
  | circuitOpen
deriving DecidableEq, Repr

/-- The recovery check at the top of the `circuit_breaker` wrapper: an open
breaker whose last failure is strictly more than `recoveryTimeout` ago is
closed and its failure count reset. -/
def cbRecovery (recoveryTimeout : ℚ) (st : CBState) (now : ℚ) : CBState :=
  if st.isOpen && decide (recoveryTimeout < now - st.lastFailureTime) then
    { st with isOpen := false, failures := 0 }
  else st

/-- One call through the `circuit_breaker` wrapper at time `now`, where
`outcome` is what the wrapped function would do if invoked.  Returns the
new state, the call's outcome, and whether the wrapped function was
invoked. -/
def circuit_breaker_call (failureThreshold : Nat) (recoveryTimeout : ℚ)
    (st : CBState) (now : ℚ) (outcome : Except PyError α) :
    CBState × CBOutcome α × Bool :=
  let st1 := cbRecovery recoveryTimeout st now
  if st1.isOpen then (st1, .circuitOpen, false)
  else
    match outcome with
    | .ok a => ({ st1 with failures := 0 }, .value a, true)
    | .error e =>
      let f := st1.failures + 1
      ({ failures := f, lastFailureTime := now,
         isOpen := st1.isOpen || decide (failureThreshold ≤ f) }, .err e, true)

/-- Model of `IRSIngestion.category_keywords`: the ordered classification table. -/
def category_keywords : List (List Char × List (List Char)) :=
  [("Religious".data,
    ["church".data, "temple".data, "mosque".data, "synagogue".data,
     "ministry".data, "mission".data, "catholic".data, "protestant".data,
     "baptist".data, "methodist".data, "lutheran".data, "presbyterian".data,
     "episcopal".data, "orthodox".data, "jewish".data, "islamic".data,
     "hindu".data, "buddhist".data, "religious".data, "faith".data,
     "spiritual".data, "diocese".data, "archdiocese".data, "parish".data,
     "congregation".data]),
   ("Education".data,
    ["university".data, "college".data, "school".data, "academy".data,
     "institute".data, "foundation".data, "scholarship".data,
     "education".data, "learning".data, "research".data, "library".data,
     "museum".data, "training".data]),
   ("Healthcare".data,
    ["hospital".data, "medical".data, "health".data, "clinic".data,
     "care".data, "treatment".data, "therapy".data, "rehabilitation".data,
     "wellness".data, "disease".data, "cancer".data, "heart".data,
     "mental health".data]),
   ("Humanitarian".data,
    ["red cross".data, "salvation army".data, "united way".data,
     "humanitarian".data, "disaster".data, "relief".data, "emergency".data,
     "aid".data, "assistance".data, "charity".data, "help".data,
     "support".data, "community".data]),
   ("Environment".data,
    ["environment".data, "conservation".data, "wildlife".data,
     "nature".data, "climate".data, "sustainability".data, "green".data,
     "ecology".data, "forest".data, "ocean".data, "clean".data,
     "renewable".data]),
   ("Arts".data,
    ["art".data, "museum".data, "gallery".data, "theater".data,
     "theatre".data, "music".data, "dance".data, "performance".data,
     "cultural".data, "creative".data, "arts".data, "entertainment".data])]

/-- The classification text `f"{recipient_name} {description}".lower()`. -/
def classText (recipientName description : List Char) : List Char :=
  pyLower (recipientName ++ ' ' :: description)

/-- Does a category row of the keyword table match the text (some keyword,
lowercased, occurs as a substring)? -/
def rowMatches (text : List Char) (row : List Char × List (List Char)) : Bool :=
  row.2.any (fun k => hasSub (pyLower k) text)

/-- Model of `IRSIngestion._classify_recipient`: scan the keyword table in order and
return the first category one of whose keywords occurs in the combined
lowercased text; `Other` when nothing matches. -/
def classify_recipient (recipientName description : List Char) : List Char :=
  let text := classText recipientName description
  match category_keywords.find? (fun row => rowMatches text row) with
  | some row => row.1
  | none => "Other".data

theorem toLowerC_idem (c : Char) : toLowerC (toLowerC c) = toLowerC c := by
  unfold toLowerC
  cases h : lowerPairs.find? (fun p => p.1 == c) with
  | none => simp [h]
  | some p =>
    have hp : p ∈ lowerPairs := List.mem_of_find?_eq_some h
    have hnone : lowerPairs.find? (fun q => q.1 == p.2) = none := by
      apply List.find?_eq_none.mpr
      intro a ha
      have htab : ∀ x ∈ lowerPairs, ∀ y ∈ lowerPairs, ¬(x.1 == y.2) = true := by decide
      exact htab a ha p hp
    simp [hnone]

/-- Behaviour of `retryAux` for an arbitrary starting attempt: bounds on
the number of invocations, all invocations before the last failed
retryably, a success comes from the last invocation, and a final error
comes from the last invocation and is either non-retryable or occurred on
the final allowed attempt. -/
theorem retryAux_spec {α : Type} (retriable : PyError → Bool)
    (f : Nat → Except PyError α) :
    ∀ (r attempt : Nat),
      attempt + 1 ≤ (retryAux retriable f attempt r).2 ∧
      (retryAux retriable f attempt r).2 ≤ attempt + r + 1 ∧
      (∀ i, attempt ≤ i → i + 1 < (retryAux retriable f attempt r).2 →
        ∃ e, f i = .error e ∧ retriable e = true) ∧
      (∀ a, (retryAux retriable f attempt r).1 = .ok a →
        f ((retryAux retriable f attempt r).2 - 1) = .ok a) ∧
      (∀ e, (retryAux retriable f attempt r).1 = .error e →
        f ((retryAux retriable f attempt r).2 - 1) = .error e ∧
          (retriable e = false ∨
            (retryAux retriable f attempt r).2 = attempt + r + 1)) := by
  intro r
  induction r with
  | zero =>
    intro attempt
    cases hf : f attempt with
    | ok a =>
      have hres : retryAux retriable f attempt 0 = (.ok a, attempt + 1) := by
        simp [retryAux, hf]
      rw [hres]
      refine ⟨le_refl _, by omega, ?_, ?_, ?_⟩
      · intro i hi hlt
        exact absurd hlt (by omega)
      · intro a' ha'
        simp only at ha'
        cases ha'
        simpa using hf
      · intro e' he'
        simp at he'
    | error e =>
      have hres : retryAux retriable f attempt 0 = (.error e, attempt + 1) := by
        simp [retryAux, hf]
      rw [hres]
      refine ⟨le_refl _, by omega, ?_, ?_, ?_⟩
      · intro i hi hlt
        exact absurd hlt (by omega)
      · intro a' ha'
        simp at ha'
      · intro e' he'
        simp only at he'
        cases he'
        exact ⟨by simpa using hf, Or.inr rfl⟩
  | succ r ih =>
    intro attempt
    cases hf : f attempt with
    | ok a =>
      have hres : retryAux retriable f attempt (r + 1) = (.ok a, attempt + 1) := by
        simp [retryAux, hf]
      rw [hres]
      refine ⟨le_refl _, by omega, ?_, ?_, ?_⟩
      · intro i hi hlt
        exact absurd hlt (by omega)
      · intro a' ha'
        simp only at ha'
        cases ha'
        simpa using hf
      · intro e' he'
        simp at he'
    | error e =>
      cases hr : retriable e with
      | false =>
        have hres : retryAux retriable f attempt (r + 1) = (.error e, attempt + 1) := by
          simp [retryAux, hf, hr]
        rw [hres]
        refine ⟨le_refl _, by omega, ?_, ?_, ?_⟩
        · intro i hi hlt
          exact absurd hlt (by omega)
        · intro a' ha'
          simp at ha'
        · intro e' he'
          simp only at he'
          cases he'
          exact ⟨by simpa using hf, Or.inl hr⟩
      | true =>
        have hres : retryAux retriable f attempt (r + 1) =
            retryAux retriable f (attempt + 1) r := by
          simp [retryAux, hf, hr]
        rw [hres]
        have h := ih (attempt + 1)
        refine ⟨by omega, by omega, ?_, h.2.2.2.1, ?_⟩
        · intro i hi hlt
          rcases Nat.eq_or_lt_of_le hi with heq | hgt
          · exact ⟨e, heq ▸ hf, hr⟩
          · exact h.2.2.1 i hgt hlt
        · intro e' he'
          rcases h.2.2.2.2 e' he' with ⟨h1, h2⟩
          refine ⟨h1, ?_⟩
          rcases h2 with h2 | h2
          · exact Or.inl h2
          · exact Or.inr (by omega)

/-- C3: the `ExponentialBackoff` wrapper invokes the wrapped operation at
most `max_retries + 1` times; every invocation before the last one was a
retryable failure (so a success is returned immediately, with no further
invocation); the final outcome — success or error — is exactly the outcome
of the last invocation; and a final error is either non-retryable (so it
propagated at once) or happened on the last allowed attempt. -/
theorem retry_loop_spec {α : Type} (maxRetries : Nat) (retriable : PyError → Bool)
    (f : Nat → Except PyError α) :
    1 ≤ (retryCall maxRetries retriable f).2 ∧
    (retryCall maxRetries retriable f).2 ≤ maxRetries + 1 ∧
    (∀ i, i + 1 < (retryCall maxRetries retriable f).2 →
      ∃ e, f i = .error e ∧ retriable e = true) ∧
    (∀ a, (retryCall maxRetries retriable f).1 = .ok a →
      f ((retryCall maxRetries retriable f).2 - 1) = .ok a) ∧
    (∀ e, (retryCall maxRetries retriable f).1 = .error e →
      f ((retryCall maxRetries retriable f).2 - 1) = .error e ∧
        (retriable e = false ∨
          (retryCall maxRetries retriable f).2 = maxRetries + 1)) := by
  have h := retryAux_spec retriable f maxRetries 0
  refine ⟨h.1, by simpa [retryCall] using h.2.1, ?_, h.2.2.2.1, ?_⟩
  · intro i hi
    exact h.2.2.1 i (Nat.zero_le i) hi
  · intro e he
    rcases h.2.2.2.2 e he with ⟨h1, h2⟩
    refine ⟨h1, ?_⟩
    simpa [retryCall] using h2

/-- A wrapped operation that fails retryably on the first attempt and
succeeds on the second. -/
def retryWitnessF : Nat → Except PyError Nat :=
  fun n => if n == 0 then .error (.rateLimitError none) else .ok 7

/-- Witness for C3 at a concrete operation: with `max_retries = 3`, the
first attempt fails retryably, the second succeeds, the loop stops after
two invocations and returns the success of the last invocation. -/
theorem retry_loop_witness :
    (retryCall 3 is_retryable_error retryWitnessF).2 = 2 ∧
    retryWitnessF ((retryCall 3 is_retryable_error retryWitnessF).2 - 1) = .ok 7 ∧
    (∃ e, retryWitnessF 0 = .error e ∧ is_retryable_error e = true) := by
  have h := retry_loop_spec 3 is_retryable_error retryWitnessF
  exact ⟨rfl, h.2.2.2.1 7 rfl, h.2.2.1 0 (by decide)⟩

/-- C6 (code bug): inside `robust_api_request`, a network timeout or
connection error is converted to `APIError(status_code=None)` before the
backoff classifier runs, and `_is_retryable_error` returns `False` for an
`APIError` without a status code — so the request is made exactly once and
is never retried, even though the classifier itself would treat the raw
`Timeout`/`ConnectionError` as retryable. -/
theorem robust_api_request_timeout_not_retried :
    robust_api_request 3 (fun _ => .timeout) = (.error (.apiError none), 1) ∧
    robust_api_request 3 (fun _ => .connError) = (.error (.apiError none), 1) ∧
    is_retryable_error .timeoutError = true ∧
    is_retryable_error .connectionError = true := by
  refine ⟨rfl, rfl, rfl, rfl⟩

/-- C10: when `min_spending` and `max_spending` are each `None` or exactly
zero (both Python-falsy), `filter_companies_by_spending` returns the id of
every company in the queryset, independent of any spending records — so
`max_spending = 0` excludes nothing. -/
theorem filter_zero_bounds_spec (db : Db) (queryset : List Company)
    (minSpending maxSpending : Option ℚ) (startDate endDate : Option PyDate)
    (hmin : truthyQ minSpending = false) (hmax : truthyQ maxSpending = false) :
    filter_companies_by_spending db queryset minSpending maxSpending
        startDate endDate = queryset.map (fun c => c.id) := by
  simp [filter_companies_by_spending, hmin, hmax]

/-- A company with strictly positive total spending, used to witness
C10. -/
def c10Company : Company := { id := 4, name := "Acme".data, ticker := none, cik := none }

/-- A store in which `c10Company` has 750 of lobbying spending. -/
def c10Db : Db :=
  { lobbyingReports := [{ companyId := 4, year := 2023, quarter := 1, amountSpent := 750 }],
    charitableGrants := [], politicalContributions := [] }

/-- Witness for C10: with `max_spending = 0`, a company whose total
spending is positive is still returned. -/
theorem filter_zero_bounds_witness :
    filter_companies_by_spending c10Db [c10Company] none (some 0) none none = [4] := by
  rw [filter_zero_bounds_spec c10Db [c10Company] none (some 0) none none rfl (by decide)]
  rfl

/-- C5: `calculate_delay` is always non-negative and is zero at attempt 0;
with jitter disabled (and a non-negative configuration) it equals
`min(max_delay, base_delay * exponential_base^(n-1))` exactly for `n ≥ 1`
and is monotonically non-decreasing in the attempt number; with the
defaults `base_delay=1, exponential_base=2` the delays at attempts 1, 2, 3
are 1, 2, 4, and at attempt 10 with `max_delay=5` the delay is capped at
5. -/
theorem calculate_delay_spec :
    (∀ (cfg : BackoffCfg) (j : ℚ) (n : Int), 0 ≤ calculate_delay cfg j n) ∧
    (∀ (cfg : BackoffCfg) (j : ℚ), calculate_delay cfg j 0 = 0) ∧
    (∀ (cfg : BackoffCfg) (j : ℚ) (n : Int), cfg.jitter = false →
      0 ≤ cfg.baseDelay → 0 ≤ cfg.maxDelay → 0 ≤ cfg.expBase → 1 ≤ n →
      calculate_delay cfg j n =
        min cfg.maxDelay (cfg.baseDelay * cfg.expBase ^ (n - 1).toNat)) ∧
    (∀ (cfg : BackoffCfg) (j : ℚ) (n m : Int), cfg.jitter = false →
      0 ≤ cfg.baseDelay → 1 ≤ cfg.expBase → n ≤ m →
      calculate_delay cfg j n ≤ calculate_delay cfg j m) ∧
    (calculate_delay defaultCfg 0 1 = 1 ∧ calculate_delay defaultCfg 0 2 = 2 ∧
      calculate_delay defaultCfg 0 3 = 4 ∧
      calculate_delay { defaultCfg with maxDelay := 5 } 0 10 = 5) := by
  have hnonneg : ∀ (cfg : BackoffCfg) (j : ℚ) (n : Int),
      0 ≤ calculate_delay cfg j n := by
    intro cfg j n
    unfold calculate_delay
    split
    · exact le_refl 0
    · exact le_max_left 0 _
  refine ⟨hnonneg, ?_, ?_, ?_, ?_, ?_, ?_, ?_⟩
  · intro cfg j
    simp [calculate_delay]
  · intro cfg j n hj hb hM he hn
    unfold calculate_delay
    rw [if_neg (by omega), hj]
    simp only [Bool.false_eq_true, if_false]
    rw [max_eq_right (le_min (mul_nonneg hb (pow_nonneg he _)) hM), min_comm]
  · intro cfg j n m hj hb he hnm
    by_cases hn : n ≤ 0
    · rw [show calculate_delay cfg j n = 0 from if_pos hn]
      exact hnonneg cfg j m
    · have hm : ¬ m ≤ 0 := by omega
      unfold calculate_delay
      rw [if_neg hn, if_neg hm, hj]
      simp only [Bool.false_eq_true, if_false]
      refine max_le_max (le_refl 0) (min_le_min ?_ (le_refl _))
      refine mul_le_mul_of_nonneg_left ?_ hb
      exact pow_le_pow_right₀ he (by omega)
  · norm_num [calculate_delay, defaultCfg, min_def, max_def]
  · norm_num [calculate_delay, defaultCfg, min_def, max_def]
  · have ht : Int.toNat 2 = 2 := rfl
    norm_num [calculate_delay, defaultCfg, min_def, max_def, ht]
  · have ht : Int.toNat 9 = 9 := rfl
    norm_num [calculate_delay, defaultCfg, min_def, max_def, ht]

/-- Witness for C5 at the default configuration: the hypotheses of the
exact-formula and monotonicity conjuncts hold at `base_delay=1`,
`exponential_base=2`, `max_delay=60`, jitter off. -/
theorem calculate_delay_witness :
    calculate_delay defaultCfg 0 3 =
      min defaultCfg.maxDelay
        (defaultCfg.baseDelay * defaultCfg.expBase ^ ((3 : Int) - 1).toNat) ∧
    calculate_delay defaultCfg 0 2 ≤ calculate_delay defaultCfg 0 3 := by
  refine ⟨calculate_delay_spec.2.2.1 defaultCfg 0 3 rfl (by norm_num [defaultCfg])
    (by norm_num [defaultCfg]) (by norm_num [defaultCfg]) (by norm_num), ?_⟩
  exact calculate_delay_spec.2.2.2.1 defaultCfg 0 2 3 rfl
    (by norm_num [defaultCfg]) (by norm_num [defaultCfg]) (by norm_num)

/-- C4: behaviour of one circuit-breaker-wrapped call.  From a closed
breaker, a failing call increments the consecutive-failure count by one and
the breaker ends up open exactly when that count has reached the threshold;
while open with the recovery timeout not yet elapsed, the call yields the
service-unavailable outcome without invoking the wrapped function and
leaves the state unchanged; once strictly more than the recovery timeout
has passed since the last failure, the call finds the breaker closed with
the failure count reset to zero and the wrapped function is invoked; and
any invoked successful call resets the failure count to zero. -/
theorem circuit_breaker_spec (α : Type) (T : Nat) (R : ℚ) (st : CBState)
    (now : ℚ) (outcome : Except PyError α) :
    (st.isOpen = false → ∀ e, outcome = .error e →
      (circuit_breaker_call T R st now outcome).1.failures = st.failures + 1 ∧
      ((circuit_breaker_call T R st now outcome).1.isOpen = true ↔
        T ≤ st.failures + 1)) ∧
    (st.isOpen = true → now - st.lastFailureTime ≤ R →
      (circuit_breaker_call T R st now outcome).2.1 = .circuitOpen ∧
      (circuit_breaker_call T R st now outcome).2.2 = false ∧
      (circuit_breaker_call T R st now outcome).1 = st) ∧
    (st.isOpen = true → R < now - st.lastFailureTime →
      (cbRecovery R st now).isOpen = false ∧ (cbRecovery R st now).failures = 0 ∧
      (circuit_breaker_call T R st now outcome).2.2 = true) ∧
    (∀ a, outcome = .ok a →
      (circuit_breaker_call T R st now outcome).2.2 = true →
      (circuit_breaker_call T R st now outcome).1.failures = 0 ∧
      (circuit_breaker_call T R st now outcome).2.1 = .value a) := by
  refine ⟨?_, ?_, ?_, ?_⟩
  · intro hcl e hout
    subst hout
    have hrec : cbRecovery R st now = st := by
      simp [cbRecovery, hcl]
    simp [circuit_breaker_call, hrec, hcl]
  · intro hop hle
    have hcond : (st.isOpen && decide (R < now - st.lastFailureTime)) = false := by
      rw [hop]
      simp only [Bool.true_and, decide_eq_false_iff_not]
      exact not_lt.mpr hle
    have hrec : cbRecovery R st now = st := by
      unfold cbRecovery
      rw [hcond]
      simp
    simp [circuit_breaker_call, hrec, hop]
  · intro hop hgt
    have hrec : cbRecovery R st now =
        { st with isOpen := false, failures := 0 } := by
      simp [cbRecovery, hop, hgt]
    refine ⟨by rw [hrec], by rw [hrec], ?_⟩
    cases outcome with
    | ok a => simp [circuit_breaker_call, hrec]
    | error e => simp [circuit_breaker_call, hrec]
  · intro a hout hinv
    subst hout
    unfold circuit_breaker_call at hinv ⊢
    by_cases hop1 : (cbRecovery R st now).isOpen
    · simp [hop1] at hinv
    · simp [hop1]

/-- Witness for C4: a closed breaker with one prior failure and threshold 2
opens on the next failure; an open breaker inside the recovery window fails
fast without invoking; an open breaker after the window is found closed and
reset; a successful call resets the count. -/
theorem circuit_breaker_witness :
    ((circuit_breaker_call 2 60 ⟨1, 0, false⟩ 10 (.error .otherError) :
        CBState × CBOutcome Nat × Bool).1.failures = 2 ∧
      ((circuit_breaker_call 2 60 ⟨1, 0, false⟩ 10 (.error .otherError) :
        CBState × CBOutcome Nat × Bool).1.isOpen = true ↔ 2 ≤ 2)) ∧
    ((circuit_breaker_call 2 60 ⟨2, 0, true⟩ 30 (.ok 5) :
        CBState × CBOutcome Nat × Bool).2.1 = .circuitOpen ∧
      (circuit_breaker_call 2 60 ⟨2, 0, true⟩ 30 (.ok 5) :
        CBState × CBOutcome Nat × Bool).2.2 = false) ∧
    ((cbRecovery 60 ⟨2, 0, true⟩ 100).isOpen = false ∧
      (cbRecovery 60 ⟨2, 0, true⟩ 100).failures = 0) ∧
    ((circuit_breaker_call 2 60 ⟨1, 0, false⟩ 10 (.ok 5) :
        CBState × CBOutcome Nat × Bool).1.failures = 0) := by
  have h1 := (circuit_breaker_spec Nat 2 60 ⟨1, 0, false⟩ 10
    (.error .otherError)).1 rfl .otherError rfl
  have h2 := (circuit_breaker_spec Nat 2 60 ⟨2, 0, true⟩ 30 (.ok 5)).2.1 rfl
    (by norm_num)
  have h3 := (circuit_breaker_spec Nat 2 60 ⟨2, 0, true⟩ 100 (.ok 5)).2.2.1 rfl
    (by norm_num)
  have h4 := (circuit_breaker_spec Nat 2 60 ⟨1, 0, false⟩ 10 (.ok 5)).2.2.2 5
    rfl (by norm_num [circuit_breaker_call, cbRecovery])
  exact ⟨⟨h1.1, h1.2⟩, ⟨h2.1, h2.2.1⟩, ⟨h3.1, h3.2.1⟩, h4.1⟩

/-- The lobbying reports of a company that match an optional date window:
the records summed by the lobbying category, stated as a single filter. -/
def lobbying_matches (db : Db) (company : Company)
    (startDate endDate : Option PyDate) : List LobbyingReport :=
  db.lobbyingReports.filter (fun r =>
    (r.companyId == company.id) &&
    (match startDate with
     | some d => decide (d.year ≤ r.year)
     | none => true) &&
    (match endDate with
     | some d => decide (r.year ≤ d.year)
     | none => true))

/-- The charitable grants of a company that match an optional date window,
stated as a single filter. -/
def charitable_matches (db : Db) (company : Company)
    (startDate endDate : Option PyDate) : List CharitableGrant :=
  db.charitableGrants.filter (fun g =>
    (g.companyId == company.id) &&
    (match startDate with
     | some d => decide (d.year ≤ g.fiscalYear)
     | none => true) &&
    (match endDate with
     | some d => decide (g.fiscalYear ≤ d.year)
     | none => true))

/-- The political contributions linked to a company (first name token
contained case-insensitively in the PAC name) that match an optional date
window, stated as a single filter; none when the company name has no
tokens. -/
def political_matches (db : Db) (company : Company)
    (startDate endDate : Option PyDate) : List PoliticalContribution :=
  if (firstToken company.name).isEmpty then []
  else
    db.politicalContributions.filter (fun p =>
      icontains p.companyPacId (firstToken company.name) &&
      (match startDate with
       | some d => d.leD p.date
       | none => true) &&
      (match endDate with
       | some d => p.date.leD d
       | none => true))

theorem lobbying_spending_eq_matches (db : Db) (company : Company)
    (startDate endDate : Option PyDate) :
    calculate_lobbying_spending db company startDate endDate =
      sumQ ((lobbying_matches db company startDate endDate).map
        (fun r => r.amountSpent)) := by
  cases startDate <;> cases endDate <;>
    simp [calculate_lobbying_spending, lobbying_matches, List.filter_filter,
      Bool.and_comm, Bool.and_assoc, Bool.and_left_comm]

theorem charitable_spending_eq_matches (db : Db) (company : Company)
    (startDate endDate : Option PyDate) :
    calculate_charitable_spending db company startDate endDate =
      sumQ ((charitable_matches db company startDate endDate).map
        (fun g => g.amount)) := by
  cases startDate <;> cases endDate <;>
    simp [calculate_charitable_spending, charitable_matches, List.filter_filter,
      Bool.and_comm, Bool.and_assoc, Bool.and_left_comm]

theorem political_spending_eq_matches (db : Db) (company : Company)
    (startDate endDate : Option PyDate) :
    calculate_political_spending db company startDate endDate =
      sumQ ((political_matches db company startDate endDate).map
        (fun p => p.amount)) := by
  by_cases h : (firstToken company.name).isEmpty
  · simp [calculate_political_spending, political_matches, h, sumQ]
  · cases startDate <;> cases endDate <;>
      simp [calculate_political_spending, political_matches, h, List.filter_filter,
        Bool.and_comm, Bool.and_assoc, Bool.and_left_comm]

theorem calculate_all_fields (db : Db) (company : Company)
    (startDate endDate : Option PyDate) :
    calculate_company_spending db company ("all".data) startDate endDate =
      { lobbying := calculate_lobbying_spending db company startDate endDate,
        charitable := calculate_charitable_spending db company startDate endDate,
        political := calculate_political_spending db company startDate endDate,
        total := calculate_lobbying_spending db company startDate endDate +
          calculate_charitable_spending db company startDate endDate +
          calculate_political_spending db company startDate endDate } := by
  unfold calculate_company_spending
  rw [if_pos (Or.inl rfl), if_pos (Or.inl rfl), if_pos (Or.inl rfl)]

theorem calculate_lobbying_fields (db : Db) (company : Company)
    (startDate endDate : Option PyDate) :
    calculate_company_spending db company ("lobbying".data) startDate endDate =
      { lobbying := calculate_lobbying_spending db company startDate endDate,
        charitable := 0, political := 0,
        total := calculate_lobbying_spending db company startDate endDate + 0 + 0 } := by
  unfold calculate_company_spending
  rw [if_pos (Or.inr rfl), if_neg (by decide), if_neg (by decide)]

/-- The company of the aggregation example: two lobbying reports summing to
2,500,000, one 500,000 grant, one linked 5,000 contribution. -/
def exampleCompany : Company :=
  { id := 1, name := "Apple Inc.".data, ticker := some ("AAPL".data), cik := none }

/-- The record store of the aggregation example. -/
def exampleDb : Db :=
  { lobbyingReports :=
      [{ companyId := 1, year := 2023, quarter := 1, amountSpent := 1000000 },
       { companyId := 1, year := 2023, quarter := 2, amountSpent := 1500000 }],
    charitableGrants := [{ companyId := 1, fiscalYear := 2023, amount := 500000 }],
    politicalContributions :=
      [{ companyPacId := "Apple Inc. PAC".data, amount := 5000,
         date := { year := 2023, month := 6, day := 15 } }] }

/-- C1: for every store, company and optional date window,
`calculate_company_spending(company, 'all', start, end)` returns exactly
the sums of the matching lobbying, charitable and political records (zero
when there are none, since the sum of no records is zero) with
`total = lobbying + charitable + political`; the `'lobbying'` category
returns the same lobbying figure with charitable and political zero and
`total` equal to the lobbying figure; and on the concrete example —
lobbying reports of 1,000,000 and 1,500,000, one 500,000 grant, one linked
5,000 contribution — the results are
`{2500000, 500000, 5000, 3005000}` and `{2500000, 0, 0, 2500000}`. -/
theorem spending_aggregation_spec :
    (∀ (db : Db) (company : Company) (startDate endDate : Option PyDate),
      (calculate_company_spending db company ("all".data) startDate endDate).lobbying =
        sumQ ((lobbying_matches db company startDate endDate).map
          (fun r => r.amountSpent)) ∧
      (calculate_company_spending db company ("all".data) startDate endDate).charitable =
        sumQ ((charitable_matches db company startDate endDate).map
          (fun g => g.amount)) ∧
      (calculate_company_spending db company ("all".data) startDate endDate).political =
        sumQ ((political_matches db company startDate endDate).map
          (fun p => p.amount)) ∧
      (calculate_company_spending db company ("all".data) startDate endDate).total =
        (calculate_company_spending db company ("all".data) startDate endDate).lobbying +
        (calculate_company_spending db company ("all".data) startDate endDate).charitable +
        (calculate_company_spending db company ("all".data) startDate endDate).political ∧
      (calculate_company_spending db company ("lobbying".data) startDate endDate).lobbying =
        (calculate_company_spending db company ("all".data) startDate endDate).lobbying ∧
      (calculate_company_spending db company ("lobbying".data) startDate endDate).charitable = 0 ∧
      (calculate_company_spending db company ("lobbying".data) startDate endDate).political = 0 ∧
      (calculate_company_spending db company ("lobbying".data) startDate endDate).total =
        (calculate_company_spending db company ("lobbying".data) startDate endDate).lobbying) ∧
    (calculate_company_spending exampleDb exampleCompany ("all".data) none none =
      { lobbying := 2500000, charitable := 500000, political := 5000,
        total := 3005000 } ∧
     calculate_company_spending exampleDb exampleCompany ("lobbying".data) none none =
      { lobbying := 2500000, charitable := 0, political := 0,
        total := 2500000 }) := by
  constructor
  · intro db company startDate endDate
    rw [calculate_all_fields, calculate_lobbying_fields]
    refine ⟨lobbying_spending_eq_matches db company startDate endDate,
      charitable_spending_eq_matches db company startDate endDate,
      political_spending_eq_matches db company startDate endDate, rfl, rfl, rfl,
      rfl, ?_⟩
    simp
  · have hl : calculate_lobbying_spending exampleDb exampleCompany none none =
        2500000 := by
      norm_num [calculate_lobbying_spending, exampleDb, exampleCompany, sumQ]
    have hc : calculate_charitable_spending exampleDb exampleCompany none none =
        500000 := by
      norm_num [calculate_charitable_spending, exampleDb, exampleCompany, sumQ]
    have hft : firstToken ("Apple Inc.".data) = "Apple".data := by
      simp [firstToken, isSpaceC]
    have hp : calculate_political_spending exampleDb exampleCompany none none =
        5000 := by
      norm_num [calculate_political_spending, exampleDb, exampleCompany, hft,
        icontains, hasSub, leadsWith, pyLower, toLowerC, lowerPairs, sumQ]
    constructor
    · rw [calculate_all_fields, hl, hc, hp]
      norm_num
    · rw [calculate_lobbying_fields, hl]
      norm_num

theorem iexact_self (a : List Char) : iexact a a = true := by
  simp [iexact]

/-- C2: `_find_or_create_company` is a pure find-or-create.  It always
returns a company that is a row of the resulting store, and calling it a
second time with the same raw name, ticker and CIK returns that same
company and leaves the store unchanged — in particular it never creates two
rows. -/
theorem find_or_create_idempotent (st : Store) (name : List Char)
    (ticker cik : Option (List Char)) :
    (find_or_create_company (find_or_create_company st name ticker cik).2
        name ticker cik).1 = (find_or_create_company st name ticker cik).1 ∧
    (find_or_create_company (find_or_create_company st name ticker cik).2
        name ticker cik).2 = (find_or_create_company st name ticker cik).2 ∧
    (find_or_create_company st name ticker cik).1 ∈
      (find_or_create_company st name ticker cik).2.companies := by
  cases h1 : findByName st (resolve_alias name) with
  | some c =>
    have e1 : find_or_create_company st name ticker cik = (c, st) := by
      simp only [find_or_create_company]
      rw [h1]
    have hc : c ∈ st.companies := by
      unfold findByName at h1
      exact List.mem_of_find?_eq_some h1
    simp [e1, hc]
  | none =>
    cases h2 : (if truthyStr ticker then findByTicker st (ticker.getD []) else none) with
    | some c =>
      have e1 : find_or_create_company st name ticker cik = (c, st) := by
        simp only [find_or_create_company]
        rw [h1, h2]
      have hc : c ∈ st.companies := by
        cases ht : truthyStr ticker with
        | false => rw [ht] at h2; simp at h2
        | true =>
          rw [ht] at h2
          simp only [if_pos] at h2
          unfold findByTicker at h2
          exact List.mem_of_find?_eq_some h2
      simp [e1, hc]
    | none =>
      cases h3 : (if truthyStr cik then findByCik st (cik.getD []) else none) with
      | some c =>
        have e1 : find_or_create_company st name ticker cik = (c, st) := by
          simp only [find_or_create_company]
          rw [h1, h2, h3]
        have hc : c ∈ st.companies := by
          cases hk : truthyStr cik with
          | false => rw [hk] at h3; simp at h3
          | true =>
            rw [hk] at h3
            simp only [if_pos] at h3
            unfold findByCik at h3
            exact List.mem_of_find?_eq_some h3
        simp [e1, hc]
      | none =>
        have e1 : find_or_create_company st name ticker cik =
            ({ id := st.nextId, name := resolve_alias name, ticker := ticker,
               cik := cik },
             { companies := st.companies ++
                 [{ id := st.nextId, name := resolve_alias name, ticker := ticker,
                    cik := cik }],
               nextId := st.nextId + 1 }) := by
          simp only [find_or_create_company]
          rw [h1, h2, h3]
        have hfind2 : findByName
            { companies := st.companies ++
                [{ id := st.nextId, name := resolve_alias name, ticker := ticker,
                   cik := cik }],
              nextId := st.nextId + 1 } (resolve_alias name) =
            some { id := st.nextId, name := resolve_alias name, ticker := ticker,
                   cik := cik } := by
          unfold findByName at h1 ⊢
          simp only [List.find?_append, h1, Option.none_orElse]
          simp [iexact_self]
        have e2 : find_or_create_company
            { companies := st.companies ++
                [{ id := st.nextId, name := resolve_alias name, ticker := ticker,
                   cik := cik }],
              nextId := st.nextId + 1 } name ticker cik =
            ({ id := st.nextId, name := resolve_alias name, ticker := ticker,
               cik := cik },
             { companies := st.companies ++
                 [{ id := st.nextId, name := resolve_alias name, ticker := ticker,
                    cik := cik }],
               nextId := st.nextId + 1 }) := by
          simp only [find_or_create_company]
          rw [hfind2]
        rw [e1]
        exact ⟨by rw [e2], by rw [e2], by simp⟩

/-- The empty store the C7 resolution run starts from. -/
def emptyStore : Store := { companies := [], nextId := 1 }

/-- C7 (code bug): resolving `"Apple Inc."`, then `"APPLE CORPORATION"`,
then `"apple computer"` from an empty store.  `"Apple Inc."` and
`"apple computer"` resolve to the same row, but `"APPLE CORPORATION"`
creates a second, distinct company: both names normalize to `"apple"`,
which is not a key of the alias table (its keys such as `"apple inc"`
retain the corporate suffix that normalization has already stripped, so
they can never match), and the raw display names differ. -/
theorem apple_resolution_creates_two_rows :
    ((find_or_create_company
        (find_or_create_company
          (find_or_create_company emptyStore ("Apple Inc.".data) none none).2
          ("APPLE CORPORATION".data) none none).2
        ("apple computer".data) none none).1 =
      (find_or_create_company emptyStore ("Apple Inc.".data) none none).1) ∧
    ((find_or_create_company
        (find_or_create_company emptyStore ("Apple Inc.".data) none none).2
        ("APPLE CORPORATION".data) none none).1 ≠
      (find_or_create_company emptyStore ("Apple Inc.".data) none none).1) ∧
    ((find_or_create_company
        (find_or_create_company
          (find_or_create_company emptyStore ("Apple Inc.".data) none none).2
          ("APPLE CORPORATION".data) none none).2
        ("apple computer".data) none none).2.companies.length = 2) := by
  refine ⟨?_, ?_, ?_⟩ <;> decide

/-- The fixed category set of the grant classifier. -/
def allCategories : List (List Char) :=
  ["Religious".data, "Education".data, "Healthcare".data, "Humanitarian".data,
   "Environment".data, "Arts".data, "Other".data]

/-- C9: `_classify_recipient` always returns one of the seven fixed
categories; it returns `Other` exactly when no keyword of any category
occurs (case-insensitively) in the combined `name + " " + description`
text; and when a category matches while every earlier category in the fixed
order Religious, Education, Healthcare, Humanitarian, Environment, Arts
does not, that first matching category is returned. -/
theorem classify_recipient_spec (recipientName description : List Char) :
    classify_recipient recipientName description ∈ allCategories ∧
    ((∀ row ∈ category_keywords,
        rowMatches (classText recipientName description) row = false) →
      classify_recipient recipientName description = "Other".data) ∧
    (∀ pre row post, category_keywords = pre ++ row :: post →
      rowMatches (classText recipientName description) row = true →
      (∀ q ∈ pre, rowMatches (classText recipientName description) q = false) →
      classify_recipient recipientName description = row.1) := by
  refine ⟨?_, ?_, ?_⟩
  · cases h : category_keywords.find?
        (fun row => rowMatches (classText recipientName description) row) with
    | none => simp [classify_recipient, h, allCategories]
    | some row =>
      have hrow : row ∈ category_keywords := List.mem_of_find?_eq_some h
      have htab : ∀ r ∈ category_keywords, r.1 ∈ allCategories := by decide
      simpa [classify_recipient, h] using htab row hrow
  · intro hall
    have h : category_keywords.find?
        (fun row => rowMatches (classText recipientName description) row) = none := by
      apply List.find?_eq_none.mpr
      intro a ha
      rw [hall a ha]
      simp
    simp [classify_recipient, h]
  · intro pre row post htab hrow hpre
    have hprenone : pre.find?
        (fun r => rowMatches (classText recipientName description) r) = none := by
      apply List.find?_eq_none.mpr
      intro a ha
      rw [hpre a ha]
      simp
    have h : category_keywords.find?
        (fun r => rowMatches (classText recipientName description) r) = some row := by
      rw [htab, List.find?_append, hprenone, Option.none_or,
        List.find?_cons_of_pos _ hrow]
    simp [classify_recipient, h]

/-- The rows of the keyword table by position, used to state the C9
witness. -/
def ckRow (i : Nat) : List Char × List (List Char) :=
  category_keywords.getD i ([], [])

/-- Witness for C9: `"Mercy Hospital Fund"` matches a Healthcare keyword
while matching no Religious or Education keyword, so the classifier
returns `Healthcare` — the first matching category in order. -/
theorem classify_recipient_witness :
    classify_recipient ("Mercy Hospital Fund".data) [] = "Healthcare".data := by
  have h := (classify_recipient_spec ("Mercy Hospital Fund".data) []).2.2
    [ckRow 0, ckRow 1] (ckRow 2) [ckRow 3, ckRow 4, ckRow 5]
    (by decide) (by decide) (by decide)
  rw [h]
  decide

theorem map_fix {α : Type} (f : α → α) :
    ∀ l : List α, (∀ c ∈ l, f c = c) → l.map f = l
  | [], _ => rfl
  | a :: t, h => by
    rw [List.map_cons, h a (List.mem_cons_self a t),
      map_fix f t (fun c hc => h c (List.mem_cons_of_mem a hc))]

theorem mem_dropTrailingSp {c : Char} :
    ∀ l : List Char, c ∈ dropTrailingSp l → c ∈ l := by
  intro l
  induction l with
  | nil => simp [dropTrailingSp]
  | cons a t ih =>
    intro h
    rw [dropTrailingSp] at h
    cases hd : dropTrailingSp t with
    | nil =>
      rw [hd] at h
      by_cases hsp : isSpaceC a = true
      · rw [if_pos hsp] at h
        simp at h
      · rw [if_neg hsp] at h
        simp at h
        simp [h]
    | cons d t2 =>
      rw [hd] at h
      rcases List.mem_cons.mp h with h | h
      · simp [h]
      · exact List.mem_cons_of_mem a (ih (hd ▸ h))

theorem head?_dropTrailingSp {c : Char} :
    ∀ l : List Char, (dropTrailingSp l).head? = some c → l.head? = some c := by
  intro l
  cases l with
  | nil => simp [dropTrailingSp]
  | cons a t =>
    intro h
    rw [dropTrailingSp] at h
    cases hd : dropTrailingSp t with
    | nil =>
      rw [hd] at h
      by_cases hsp : isSpaceC a = true
      · rw [if_pos hsp] at h
        simp at h
      · rw [if_neg hsp] at h
        simpa using h
    | cons d t2 =>
      rw [hd] at h
      simpa using h

theorem dropTrailingSp_idem : ∀ l : List Char,
    dropTrailingSp (dropTrailingSp l) = dropTrailingSp l := by
  intro l
  induction l with
  | nil => rfl
  | cons a t ih =>
    rw [dropTrailingSp]
    cases hd : dropTrailingSp t with
    | nil =>
      by_cases hsp : isSpaceC a = true
      · rw [if_pos hsp]
        rfl
      · rw [if_neg hsp]
        rw [dropTrailingSp, dropTrailingSp, if_neg hsp]
    | cons d t2 =>
      rw [dropTrailingSp]
      have : dropTrailingSp (d :: t2) = d :: t2 := by
        rw [← hd, ih, hd]
      rw [this]

theorem head?_dropWhile_not {c : Char} {p : Char → Bool} :
    ∀ l : List Char, (l.dropWhile p).head? = some c → p c = false := by
  intro l
  induction l with
  | nil => simp
  | cons a t ih =>
    intro h
    rw [List.dropWhile_cons] at h
    by_cases hp : p a = true
    · rw [if_pos hp] at h
      exact ih h
    · rw [if_neg hp] at h
      simp at h
      rw [← h]
      exact Bool.eq_false_iff.mpr hp

theorem dropWhile_eq_self_of_head {p : Char → Bool} :
    ∀ l : List Char, (∀ c, l.head? = some c → p c = false) →
      l.dropWhile p = l := by
  intro l h
  cases l with
  | nil => rfl
  | cons a t =>
    rw [List.dropWhile_cons, if_neg]
    rw [h a rfl]
    simp

/-- No two adjacent whitespace characters. -/
def noAdjSp : List Char → Bool
  | c :: d :: t => (!(isSpaceC c && isSpaceC d)) && noAdjSp (d :: t)
  | _ => true

theorem noAdjSp_tail {a : Char} {l : List Char} (h : noAdjSp (a :: l) = true) :
    noAdjSp l = true := by
  cases l with
  | nil => rfl
  | cons d t =>
    simp only [noAdjSp, Bool.and_eq_true] at h
    exact h.2

theorem mem_collapseAux {c : Char} :
    ∀ (l : List Char) (b : Bool), c ∈ collapseAux b l →
      c = ' ' ∨ (c ∈ l ∧ isSpaceC c = false) := by
  intro l
  induction l with
  | nil => intro b h; simp [collapseAux] at h
  | cons a t ih =>
    intro b h
    rw [collapseAux] at h
    by_cases hsp : isSpaceC a = true
    · rw [if_pos hsp] at h
      cases b with
      | true =>
        rcases ih true h with h1 | ⟨h1, h2⟩
        · exact Or.inl h1
        · exact Or.inr ⟨List.mem_cons_of_mem a h1, h2⟩
      | false =>
        rcases List.mem_cons.mp h with h1 | h1
        · exact Or.inl h1
        · rcases ih true h1 with h2 | ⟨h2, h3⟩
          · exact Or.inl h2
          · exact Or.inr ⟨List.mem_cons_of_mem a h2, h3⟩
    · rw [if_neg hsp] at h
      rcases List.mem_cons.mp h with h1 | h1
      · subst h1
        exact Or.inr ⟨List.mem_cons_self _ _, Bool.eq_false_iff.mpr hsp⟩
      · rcases ih false h1 with h2 | ⟨h2, h3⟩
        · exact Or.inl h2
        · exact Or.inr ⟨List.mem_cons_of_mem a h2, h3⟩

theorem head?_collapseAux_true {c : Char} :
    ∀ l : List Char, (collapseAux true l).head? = some c →
      isSpaceC c = false := by
  intro l
  induction l with
  | nil => simp [collapseAux]
  | cons a t ih =>
    intro h
    rw [collapseAux] at h
    by_cases hsp : isSpaceC a = true
    · rw [if_pos hsp] at h
      exact ih h
    · rw [if_neg hsp] at h
      simp at h
      rw [← h]
      exact Bool.eq_false_iff.mpr hsp

theorem noAdjSp_collapseAux :
    ∀ (l : List Char) (b : Bool), noAdjSp (collapseAux b l) = true := by
  intro l
  induction l with
  | nil => intro b; rfl
  | cons a t ih =>
    intro b
    by_cases hsp : isSpaceC a = true
    · cases b with
      | true =>
        rw [show collapseAux true (a :: t) = collapseAux true t by
          simp [collapseAux, hsp]]
        exact ih true
      | false =>
        rw [show collapseAux false (a :: t) = ' ' :: collapseAux true t by
          simp [collapseAux, hsp]]
        cases hX : collapseAux true t with
        | nil => rfl
        | cons d t2 =>
          have hd : isSpaceC d = false :=
            head?_collapseAux_true t (by rw [hX]; rfl)
          simp only [noAdjSp, Bool.and_eq_true]
          refine ⟨by simp [hd], ?_⟩
          rw [← hX]
          exact ih true
    · rw [show collapseAux b (a :: t) = a :: collapseAux false t by
        simp [collapseAux, hsp]]
      cases hX : collapseAux false t with
      | nil => rfl
      | cons d t2 =>
        simp only [noAdjSp, Bool.and_eq_true]
        refine ⟨by simp [Bool.eq_false_iff.mpr hsp], ?_⟩
        rw [← hX]
        exact ih false

theorem noAdjSp_dropWhile {p : Char → Bool} :
    ∀ l : List Char, noAdjSp l = true → noAdjSp (l.dropWhile p) = true := by
  intro l
  induction l with
  | nil => intro h; exact h
  | cons a t ih =>
    intro h
    rw [List.dropWhile_cons]
    by_cases hp : p a = true
    · rw [if_pos hp]
      exact ih (noAdjSp_tail h)
    · rw [if_neg hp]
      exact h

theorem noAdjSp_dropTrailingSp :
    ∀ l : List Char, noAdjSp l = true → noAdjSp (dropTrailingSp l) = true := by
  intro l
  induction l with
  | nil => intro h; exact h
  | cons a t ih =>
    intro h
    rw [dropTrailingSp]
    cases hd : dropTrailingSp t with
    | nil =>
      by_cases hsp : isSpaceC a = true
      · rw [if_pos hsp]; rfl
      · rw [if_neg hsp]; rfl
    | cons d t2 =>
      have hdt : noAdjSp (d :: t2) = true := hd ▸ ih (noAdjSp_tail h)
      have hhead : t.head? = some d := head?_dropTrailingSp t (by rw [hd]; rfl)
      cases t with
      | nil => simp at hhead
      | cons e t3 =>
        have he : e = d := by simpa using hhead
        subst he
        simp only [noAdjSp, Bool.and_eq_true] at h ⊢
        exact ⟨h.1, hdt⟩

theorem collapseAux_fix :
    ∀ (l : List Char) (b : Bool),
      (∀ c ∈ l, isSpaceC c = true → c = ' ') → noAdjSp l = true →
      (b = true → ∀ c, l.head? = some c → isSpaceC c = false) →
      collapseAux b l = l := by
  intro l
  induction l with
  | nil => intro b _ _ _; rfl
  | cons a t ih =>
    intro b hsp hadj hhd
    by_cases ha : isSpaceC a = true
    · cases b with
      | true => exact absurd ha (by rw [hhd rfl a rfl]; simp)
      | false =>
        have haeq : a = ' ' := hsp a (List.mem_cons_self _ _) ha
        have htfix : collapseAux true t = t := by
          apply ih true
          · intro c hc hc2
            exact hsp c (List.mem_cons_of_mem a hc) hc2
          · exact noAdjSp_tail hadj
          · intro _ c hc
            cases t with
            | nil => simp at hc
            | cons d t2 =>
              have hcd : d = c := by simpa using hc
              subst hcd
              simp only [noAdjSp, Bool.and_eq_true] at hadj
              have h1 := hadj.1
              rw [ha] at h1
              simpa using h1
        rw [show collapseAux false (a :: t) = ' ' :: collapseAux true t by
          simp [collapseAux, ha]]
        rw [htfix, haeq]
    · have htfix : collapseAux false t = t := by
        apply ih false
        · intro c hc hc2
          exact hsp c (List.mem_cons_of_mem a hc) hc2
        · exact noAdjSp_tail hadj
        · intro hb
          exact absurd hb (by simp)
      rw [show collapseAux b (a :: t) = a :: collapseAux false t by
        simp [collapseAux, ha]]
      rw [htfix]

theorem mem_tryAlts {c : Char} :
    ∀ (alts : List (List Char)) (r1 s : List Char),
      c ∈ tryAlts alts r1 s → c ∈ s ∨ c ∈ r1 := by
  intro alts
  induction alts with
  | nil =>
    intro r1 s h
    rw [tryAlts] at h
    exact Or.inl h
  | cons a rest ih =>
    intro r1 s h
    rw [tryAlts] at h
    by_cases hl : (leadsWith a.reverse r1 &&
        (((r1.drop a.length).head?.map isSpaceC).getD false)) = true
    · rw [if_pos hl] at h
      have h1 : c ∈ (r1.drop a.length).dropWhile isSpaceC := List.mem_reverse.mp h
      have h2 : c ∈ r1.drop a.length := List.dropWhile_subset _ h1
      exact Or.inr (List.drop_subset _ _ h2)
    · rw [if_neg hl] at h
      exact ih r1 s h

theorem mem_stripSuffixOnce {c : Char} (s : List Char)
    (h : c ∈ stripSuffixOnce s) : c ∈ s := by
  rw [stripSuffixOnce] at h
  rcases mem_tryAlts suffixAlts _ s h with h1 | h1
  · exact h1
  · by_cases hdot : (s.reverse.head? == some '.') = true
    · rw [if_pos hdot] at h1
      have h2 : c ∈ s.reverse := by
        cases hr : s.reverse with
        | nil => rw [hr] at h1; simp at h1
        | cons d t => rw [hr] at h1; exact List.mem_cons_of_mem d (by simpa using h1)
      exact List.mem_reverse.mp h2
    · rw [if_neg hdot] at h1
      exact List.mem_reverse.mp h1

/-- Every character of a normalized name is a space (necessarily the
literal `' '`) or a non-whitespace word character in the image of the
lowercasing map. -/
theorem normalize_chars (s : List Char) (c : Char)
    (h : c ∈ normalize_company_name s) :
    c = ' ' ∨ (isSpaceC c = false ∧ (isWordC c || isSpaceC c) = true ∧
      ∃ d, c = toLowerC d) := by
  unfold normalize_company_name at h
  by_cases he : s.isEmpty = true
  · rw [if_pos he] at h
    simp at h
  · rw [if_neg he] at h
    unfold pyStrip at h
    have h1 := mem_dropTrailingSp _ h
    have h2 := List.dropWhile_subset _ h1
    unfold collapseWs at h2
    rcases mem_collapseAux _ false h2 with hsp | ⟨h3, hnsp⟩
    · exact Or.inl hsp
    · unfold removePunct at h3
      have hkeep := List.mem_filter.mp h3
      have h4 := mem_stripSuffixOnce _ hkeep.1
      unfold pyStrip at h4
      have h5 := List.dropWhile_subset _ (mem_dropTrailingSp _ h4)
      unfold pyLower at h5
      rcases List.mem_map.mp h5 with ⟨d, _, hd⟩
      exact Or.inr ⟨hnsp, hkeep.2, d, hd.symm⟩

theorem normalize_lower_fix (s : List Char) :
    pyLower (normalize_company_name s) = normalize_company_name s := by
  unfold pyLower
  apply map_fix
  intro c hc
  rcases normalize_chars s c hc with h | ⟨_, _, d, hd⟩
  · rw [h]
    decide
  · rw [hd, toLowerC_idem]

theorem normalize_punct_fix (s : List Char) :
    removePunct (normalize_company_name s) = normalize_company_name s := by
  unfold removePunct
  apply List.filter_eq_self.mpr
  intro c hc
  rcases normalize_chars s c hc with h | ⟨_, hkeep, _⟩
  · rw [h]
    decide
  · exact hkeep

theorem normalize_head_not_space (s : List Char) (c : Char)
    (h : (normalize_company_name s).head? = some c) : isSpaceC c = false := by
  by_cases he : s.isEmpty = true
  · unfold normalize_company_name at h
    rw [if_pos he] at h
    simp at h
  · unfold normalize_company_name pyStrip at h
    rw [if_neg he] at h
    exact head?_dropWhile_not _ (head?_dropTrailingSp _ h)

theorem normalize_strip_fix (s : List Char) :
    pyStrip (normalize_company_name s) = normalize_company_name s := by
  have hdw : (normalize_company_name s).dropWhile isSpaceC =
      normalize_company_name s :=
    dropWhile_eq_self_of_head _ (normalize_head_not_space s)
  unfold pyStrip
  rw [hdw]
  by_cases he : s.isEmpty = true
  · unfold normalize_company_name
    rw [if_pos he]
    rfl
  · unfold normalize_company_name pyStrip
    rw [if_neg he, dropTrailingSp_idem]

theorem normalize_noAdjSp (s : List Char) :
    noAdjSp (normalize_company_name s) = true := by
  by_cases he : s.isEmpty = true
  · unfold normalize_company_name
    rw [if_pos he]
    rfl
  · unfold normalize_company_name pyStrip collapseWs
    rw [if_neg he]
    exact noAdjSp_dropTrailingSp _ (noAdjSp_dropWhile _ (noAdjSp_collapseAux _ false))

theorem normalize_collapse_fix (s : List Char) :
    collapseWs (normalize_company_name s) = normalize_company_name s := by
  unfold collapseWs
  apply collapseAux_fix
  · intro c hc hsp
    rcases normalize_chars s c hc with h | ⟨h1, _, _⟩
    · exact h
    · rw [h1] at hsp
      simp at hsp
  · exact normalize_noAdjSp s
  · intro hb
    exact absurd hb (by simp)

/-- C8 counterexample: normalization is not idempotent.  `"Iron Works Co
Inc"` normalizes to `"iron works co"` (one trailing suffix token stripped),
and normalizing again strips the now-trailing `"co"`, giving
`"iron works"`. -/
theorem normalize_not_idempotent :
    normalize_company_name (normalize_company_name ("Iron Works Co Inc".data)) ≠
      normalize_company_name ("Iron Works Co Inc".data) := by
  decide

/-- C8 amended: normalization is idempotent on every input whose normalized
form is not itself changed by the trailing-suffix-stripping pass (the only
pass that can act twice); equivalently, a second normalization differs only
by possibly stripping one more trailing corporate-suffix token. -/
theorem normalize_idempotent_of_no_suffix (s : List Char)
    (hsuf : stripSuffixOnce (normalize_company_name s) =
      normalize_company_name s) :
    normalize_company_name (normalize_company_name s) =
      normalize_company_name s := by
  have hlow := normalize_lower_fix s
  have hstrip := normalize_strip_fix s
  have hpunct := normalize_punct_fix s
  have hcollapse := normalize_collapse_fix s
  set y := normalize_company_name s with hydef
  by_cases hye : y.isEmpty = true
  · have hynil : y = [] := by
      simpa using hye
    rw [hynil]
    rfl
  · show normalize_company_name y = y
    unfold normalize_company_name
    rw [if_neg hye, hlow, hstrip, hsuf, hpunct, hcollapse, hstrip]

/-- Witness for the amended C8: the normalized form of `"Apple Inc."` is
`"apple"`, which the suffix pass leaves unchanged, so normalizing twice
equals normalizing once. -/
theorem normalize_idempotent_witness :
    normalize_company_name (normalize_company_name ("Apple Inc.".data)) =
      normalize_company_name ("Apple Inc.".data) :=
  normalize_idempotent_of_no_suffix ("Apple Inc.".data) (by decide)

end SpendTrack
